import Mathlib

/-!
Shallow embedding of the W25QFlash driver (src/winbond/winbond.py) for the
Winbond W25Q serial NOR flash chip.

Modelling conventions:
* The external chip memory is a function `Mem : Nat → Nat` giving the byte
  stored at each address.  A sector erase sets every byte of the 4096-byte
  sector to `0xFF`; a page program ANDs the programmed data into the current
  contents (NOR flash can only clear bits), exactly as the spec's data model
  states ("a byte can only transition 1→0 via a program").
* Every driver operation returns the list of SPI command transactions it
  issues (the `Trace`) together with the resulting chip memory.  A successful
  `_await` poll (BUSY already clear) is the single event `Ev.statusRead`.
* Python `assert` failures and `raise` are modelled with `Except.error`;
  `int.to_bytes(n, 'big')` raises `OverflowError` when the integer does not
  fit, which `toBytesBE` mirrors.
* Python arbitrary-precision integers are `Nat`; the driver never produces
  negative intermediate values in the modelled code paths, and the one
  negative-capable expression (`BLOCK_SIZE - buf_len` in `writeblocks`,
  where a negative repeat count produces an empty list in Python) coincides
  with truncated `Nat` subtraction.
* `count` uses Python float division `int(capacity / 512)`; on every
  capacity the driver can compute (`2 ** cap` with `cap < 256`) the float
  quotient is an exactly-representable power of two, so truncated `Nat`
  division is byte-for-byte faithful.
-/

namespace Winbond

/-- Smallest erasable unit of the chip, in bytes (`W25QFlash.SECTOR_SIZE`). -/
def SECTOR_SIZE : Nat := 4096

/-- Block size exposed by the block-device facade (`W25QFlash.BLOCK_SIZE`). -/
def BLOCK_SIZE : Nat := 512

/-- Largest programmable unit per Page Program command (`W25QFlash.PAGE_SIZE`). -/
def PAGE_SIZE : Nat := 256

/-- Chip memory: byte value stored at each address. -/
abbrev Mem := Nat → Nat

/-- One SPI command transaction issued by the driver, as seen on the wire. -/
inductive Ev where
  /-- a successful BUSY poll: opcode 0x05 then SR1 reads until bit 0 clears -/
  | statusRead : Ev
  /-- Write Enable, opcode 0x06 -/
  | wren : Ev
  /-- Read JEDEC ID, opcode 0x9F -/
  | jedec : Ev
  /-- Read Status Register 1/2/3 (opcode 0x05 / 0x35 / 0x15) -/
  | readSR : Nat → Ev
  /-- Enable Reset, opcode 0x66 -/
  | resetEnable : Ev
  /-- Reset, opcode 0x99 -/
  | resetCmd : Ev
  /-- Enter 4-Byte Address Mode, opcode 0xB7 -/
  | enter4Byte : Ev
  /-- Chip Erase, opcode 0xC7 -/
  | chipErase : Ev
  /-- Fast Read: opcode (0x0B or 0x0C), serialized address, dummy byte, length -/
  | fastRead : Nat → List Nat → Nat → Ev
  /-- Sector Erase, opcode 0x20, serialized address -/
  | sectorErase : List Nat → Ev
  /-- Page Program, opcode 0x02, serialized address, data bytes -/
  | pageProgram : List Nat → List Nat → Ev
deriving DecidableEq

abbrev Trace := List Ev

/-- Python `n.to_bytes(len, 'big')`: big-endian serialization, raising
`OverflowError` when `n` does not fit in `len` bytes. -/
def toBytesBE (len n : Nat) : Except String (List Nat) :=
  if n < 2 ^ (8 * len) then
    .ok ((List.range len).map fun i => (n >>> (8 * (len - 1 - i))) % 256)
  else .error "int too big to convert"

/-- Python `len(bin(n)) - 2`: the bit length of `n`, except that `0` gives 1
(`bin(0)` is the three-character string `0b0`). -/
def pyBinLen (n : Nat) : Nat := if n = 0 then 1 else Nat.log2 n + 1

/-- Address length chosen in `__init__`:
`3 if (len(bin(self._capacity - 1)) - 2) <= 24 else 4`. -/
def adrLenOf (capacity : Nat) : Nat :=
  if pyBinLen (capacity - 1) ≤ 24 then 3 else 4

/-- `W25QFlash._read_status_reg`: `reg, bit = divmod(nr, 8)` and the returned
value is `2**bit & byte_of_register reg`.  `regs` maps the register index
(0, 1, 2 for opcodes 0x05, 0x35, 0x15) to the byte it currently reads. -/
def readStatusReg (regs : Nat → Nat) (nr : Nat) : Nat :=
  2 ^ (nr % 8) &&& regs (nr / 8)

/-- Chip response to a Page Program of `data` at `addr`: bits can only be
cleared, so each byte in the window is ANDed with the programmed byte. -/
def programPage (mem : Mem) (addr : Nat) (data : List Nat) : Mem :=
  fun a => if addr ≤ a ∧ a < addr + data.length then
             mem a &&& data.getD (a - addr) 0
           else mem a

/-- `W25QFlash._read`: assert the range is addressable, await, then issue a
Fast Read (opcode 0x0C in 4-byte mode, else 0x0B) returning `len` bytes. -/
def _read (cap adrLen : Nat) (mem : Mem) (len addr : Nat) :
    Except String (Trace × List Nat) :=
  if addr + len ≤ cap then
    match toBytesBE adrLen addr with
    | .error e => .error e
    | .ok ab =>
        .ok ([.statusRead, .fastRead (if adrLen = 4 then 0x0C else 0x0B) ab len],
             (List.range len).map fun i => mem (addr + i))
  else .error "memory not addressable"

/-- `W25QFlash._sector_erase`: WREN (itself preceded by an await), await,
then Sector Erase; the chip resets the 4096-byte sector to 0xFF. -/
def _sector_erase (adrLen : Nat) (mem : Mem) (addr : Nat) :
    Except String (Trace × Mem) :=
  match toBytesBE adrLen addr with
  | .error e => .error e
  | .ok ab =>
      .ok ([.statusRead, .wren, .statusRead, .sectorErase ab],
           fun a => if addr ≤ a ∧ a < addr + SECTOR_SIZE then 0xFF else mem a)

/-- Loop body of `W25QFlash._write` over the precomputed iteration sequence
of `for i in range(0, len(buf), 256)`: program `buf[i:i+256]` at `addr`,
advancing `addr` by 256 each turn.  Each Page Program is preceded by
`_wren()` (await + WREN) and `_await()`. -/
def writeFold (adrLen : Nat) (mem : Mem) (buf : List Nat) (addr : Nat) :
    List Nat → Except String (Trace × Mem)
  | [] => .ok ([], mem)
  | i :: rest =>
    match toBytesBE adrLen addr with
    | .error e => .error e
    | .ok ab =>
        let chunk := (buf.drop i).take PAGE_SIZE
        match writeFold adrLen (programPage mem addr chunk) buf
            (addr + PAGE_SIZE) rest with
        | .error e => .error e
        | .ok (tr, memF) =>
            .ok ([.statusRead, .wren, .statusRead, .pageProgram ab chunk] ++ tr,
                 memF)

/-- `W25QFlash._write`: asserts the buffer is a whole number of pages, the
address has its low four bits clear (`not addr & 0xf` in the source — weaker
than the documented page alignment), and the range is addressable; then runs
the page-program loop.  Python `range(0, L, 256)` is the arithmetic sequence
`0, 256, …` of `⌈L/256⌉` terms, here `List.range'` with step 256. -/
def _write (cap adrLen : Nat) (mem : Mem) (buf : List Nat) (addr : Nat) :
    Except String (Trace × Mem) :=
  if buf.length % PAGE_SIZE ≠ 0 then .error "invalid buffer length"
  else if addr &&& 0xf ≠ 0 then .error "address not at page start"
  else if ¬ (addr + buf.length ≤ cap) then .error "memory not addressable"
  else writeFold adrLen mem buf addr
    (List.range' 0 ((buf.length + (PAGE_SIZE - 1)) / PAGE_SIZE) PAGE_SIZE)

/-- `W25QFlash._writeblock`: read the enclosing 4096-byte sector into the
cache, overlay the 512-byte block, erase the sector, program it back. -/
def _writeblock (cap adrLen : Nat) (mem : Mem) (blocknum : Nat)
    (buf : List Nat) : Except String (Trace × Mem) :=
  if buf.length ≠ BLOCK_SIZE then .error "invalid block length"
  else
    let sector_addr := (blocknum / 8) * SECTOR_SIZE
    let index := (blocknum <<< 9) &&& 0xfff
    match _read cap adrLen mem SECTOR_SIZE sector_addr with
    | .error e => .error e
    | .ok (tr1, cache) =>
        let cache2 := cache.take index ++ buf ++ cache.drop (index + BLOCK_SIZE)
        match _sector_erase adrLen mem sector_addr with
        | .error e => .error e
        | .ok (tr2, mem1) =>
            match _write cap adrLen mem1 cache2 sector_addr with
            | .error e => .error e
            | .ok (tr3, mem2) => .ok (tr1 ++ tr2 ++ tr3, mem2)

/-- Multi-block loop of `W25QFlash.readblocks` over the offsets the
`while offset < buf_len` / `offset += 512` loop visits (the sequence
`range(0, buf_len, 512)`): each turn reads 512 bytes at `blocknum << 9`
and increments `blocknum`. -/
def readLoop (cap adrLen : Nat) (mem : Mem) (blocknum : Nat) :
    List Nat → Except String (Trace × List Nat)
  | [] => .ok ([], [])
  | _offset :: rest =>
    match _read cap adrLen mem BLOCK_SIZE (blocknum <<< 9) with
    | .error e => .error e
    | .ok (tr, bytes) =>
        match readLoop cap adrLen mem (blocknum + 1) rest with
        | .error e => .error e
        | .ok (tr2, restBytes) => .ok (tr ++ tr2, bytes ++ restBytes)

/-- `W25QFlash.readblocks`: the buffer length must be a multiple of 512; one
block is read directly, otherwise the loop runs.  The bytes deposited in the
caller's buffer are returned. -/
def readblocks (cap adrLen : Nat) (mem : Mem) (blocknum buf_len : Nat) :
    Except String (Trace × List Nat) :=
  if buf_len % BLOCK_SIZE ≠ 0 then .error "invalid buffer length"
  else if buf_len = BLOCK_SIZE then _read cap adrLen mem BLOCK_SIZE (blocknum <<< 9)
  else readLoop cap adrLen mem blocknum
    (List.range' 0 ((buf_len + (BLOCK_SIZE - 1)) / BLOCK_SIZE) BLOCK_SIZE)

/-- Multi-block loop of `W25QFlash.writeblocks` over the offsets the
`while offset < buf_len` / `offset += 512` loop visits: each turn passes the
slice `buf2[offset:offset+512]` to `_writeblock` and increments `blocknum`. -/
def wbLoop (cap adrLen : Nat) (mem : Mem) (buf2 : List Nat) (blocknum : Nat) :
    List Nat → Except String (Trace × Mem)
  | [] => .ok ([], mem)
  | offset :: rest =>
    match _writeblock cap adrLen mem blocknum ((buf2.drop offset).take BLOCK_SIZE) with
    | .error e => .error e
    | .ok (tr, mem1) =>
        match wbLoop cap adrLen mem1 buf2 (blocknum + 1) rest with
        | .error e => .error e
        | .ok (tr2, mem2) => .ok (tr ++ tr2, mem2)

/-- `W25QFlash.writeblocks`: when the length is not a multiple of 512 the
source appends `(BLOCK_SIZE - buf_len) * [255]` dummy bytes (in Python a
negative repeat count yields an empty list, which truncated subtraction
reproduces); a single block goes straight to `_writeblock`, otherwise the
loop slices the padded buffer at offsets `range(0, buf_len, 512)`. -/
def writeblocks (cap adrLen : Nat) (mem : Mem) (blocknum : Nat)
    (buf : List Nat) : Except String (Trace × Mem) :=
  let buf_len := buf.length
  let buf2 := if buf_len % BLOCK_SIZE ≠ 0 then
                buf ++ List.replicate (BLOCK_SIZE - buf_len) 0xFF
              else buf
  if buf_len = BLOCK_SIZE then _writeblock cap adrLen mem blocknum buf2
  else wbLoop cap adrLen mem buf2 blocknum
    (List.range' 0 ((buf_len + (BLOCK_SIZE - 1)) / BLOCK_SIZE) BLOCK_SIZE)

/-- `W25QFlash.count`: `int(self._capacity / self.BLOCK_SIZE)` (exact for
the power-of-two capacities `identify` produces). -/
def count (capacity : Nat) : Nat := capacity / BLOCK_SIZE

/-- Outcome of `W25QFlash._await`: whether it returned normally, how many
0.1 s sleeps it performed, and the chip-select level on exit (`csHigh =
true` means CS was driven back high, i.e. the transaction was closed). -/
structure AwaitResult where
  ok : Bool
  sleeps : Nat
  csHigh : Bool
deriving DecidableEq

/-- The polling loop of `W25QFlash._await`: read SR1; if bit 0 is clear,
exit the loop and drive CS high; otherwise raise once `trials > 20`, leaving
CS low; else sleep 0.1 s and retry.  `status n` is the byte returned by the
(n+1)-th SR1 read; `rem` counts the retries still allowed, i.e.
`rem = 21 - trials`, so `rem = 0` is exactly the source's `trials > 20`. -/
def awaitGo (status : Nat → Nat) (readIdx : Nat) : Nat → AwaitResult
  | 0 => if status readIdx &&& 1 = 0 then ⟨true, 0, true⟩ else ⟨false, 0, false⟩
  | rem + 1 =>
    if status readIdx &&& 1 = 0 then ⟨true, 0, true⟩
    else
      let r := awaitGo status (readIdx + 1) rem
      ⟨r.ok, r.sleeps + 1, r.csHigh⟩

/-- `W25QFlash._await` as invoked: CS asserted, opcode 0x05 sent, then the
polling loop starting from `trials = 0`, i.e. 21 retries allowed. -/
def awaitRun (status : Nat → Nat) : AwaitResult := awaitGo status 0 21

/-- The device attributes set in `__init__` and updated by `identify`. -/
structure IdState where
  manufacturer : Nat
  mem_type : Nat
  device_type : Nat
  capacity : Nat
deriving DecidableEq

/-- Attribute values set by `__init__` before `identify` runs. -/
def initIdState : IdState := ⟨0, 0, 0, 0⟩

/-- `W25QFlash.identify`: reads the three JEDEC ID bytes, stores
`2 ** cap` into `_capacity`, then raises `OSError` if any byte is zero;
only on the non-raising path are `_manufacturer`, `_mem_type` and
`_device_type` assigned. -/
def identify (st : IdState) (mf mem_type cap : Nat) : IdState × Option String :=
  let st1 : IdState := ⟨st.manufacturer, st.mem_type, st.device_type, 2 ^ cap⟩
  if mf = 0 ∨ mem_type = 0 ∨ cap = 0 then
    (st1, some "device not responding, check wiring.")
  else
    (⟨mf, mem_type, (mem_type <<< 8) ||| cap, 2 ^ cap⟩, none)

/-- Address-mode setup at the end of `__init__`: in 4-byte mode, read SR3
bit 0 (register number 16) and, when it is clear, await and issue 0xB7. -/
def modeSetup (adrLen : Nat) (regs : Nat → Nat) : Trace :=
  if adrLen = 4 then
    .readSR 2 :: (if readStatusReg regs 16 = 0 then [.statusRead, .enter4Byte] else [])
  else []

/-- SPI transactions issued by `W25QFlash.__init__` on a responsive chip:
the optional software-reset pair (the in-memory busy flag is False there,
so no await precedes it), `identify` (await + Read JEDEC ID), then the
address-mode setup for the capacity just identified. -/
def constructTrace (softwareReset : Bool) (capacity : Nat) (regs : Nat → Nat) :
    Trace :=
  (if softwareReset then [Ev.resetEnable, Ev.resetCmd] else [])
    ++ [Ev.statusRead, Ev.jedec] ++ modeSetup (adrLenOf capacity) regs

/-- `W25QFlash.format`: WREN (await + 0x06), await, Chip Erase, await. -/
def formatTrace : Trace :=
  [.statusRead, .wren, .statusRead, .chipErase, .statusRead]

/-- `W25QFlash.reset`: awaits only when the in-memory `_busy` flag is set,
then issues Enable Reset and Reset as two transactions. -/
def resetTrace (busy : Bool) : Trace :=
  (if busy then [Ev.statusRead] else []) ++ [Ev.resetEnable, Ev.resetCmd]

/-- The contents of the driver's sector cache right before `_writeblock`
erases and reprograms the sector: the sector as read from the chip with the
512-byte block overlaid at its in-sector offset (`self._cache` after the
slice assignment). -/
def sectorCache (mem : Mem) (blocknum : Nat) (buf : List Nat) : List Nat :=
  let cache := (List.range SECTOR_SIZE).map fun i => mem (blocknum / 8 * SECTOR_SIZE + i)
  let index := (blocknum <<< 9) &&& 0xfff
  cache.take index ++ buf ++ cache.drop (index + BLOCK_SIZE)

/-- The SPI transactions the `_write` page loop issues for `k` pages taken
from buffer offset `i` onwards at consecutive page addresses starting at
`addr`: for each page, await + WREN + await + Page Program of the 256-byte
chunk at its big-endian serialized address. -/
def pagesTrace (adrLen : Nat) (buf : List Nat) (addr i k : Nat) : Trace :=
  (List.range k).flatMap fun p =>
    [Ev.statusRead, Ev.wren, Ev.statusRead,
     Ev.pageProgram
       ((List.range adrLen).map fun q =>
         ((addr + p * 256) >>> (8 * (adrLen - 1 - q))) % 256)
       ((buf.drop (i + p * 256)).take 256)]

/-- Recognizes a successful BUSY-poll transaction in a trace. -/
def isAwaitEv : Ev → Bool
  | .statusRead => true
  | _ => false

/-- Recognizes a Fast Read transaction in a trace. -/
def isFastReadEv : Ev → Bool
  | .fastRead _ _ _ => true
  | _ => false

/-- Recognizes a Page Program transaction in a trace. -/
def isPageProgramEv : Ev → Bool
  | .pageProgram _ _ => true
  | _ => false

/-- Recognizes the Enter-4-Byte-Address-Mode command in a trace. -/
def isEnter4Ev : Ev → Bool
  | .enter4Byte => true
  | _ => false

/-! Helper lemmas. -/

theorem and255_of_lt (x : Nat) (h : x < 256) : 255 &&& x = x := by
  rw [Nat.and_comm, show ((255 : Nat) = 2 ^ 8 - 1) by norm_num,
    Nat.and_pow_two_sub_one_eq_mod]
  exact Nat.mod_eq_of_lt h

theorem toBytesBE_ok (len n : Nat) (h : n < 2 ^ (8 * len)) :
    toBytesBE len n =
      .ok ((List.range len).map fun i => (n >>> (8 * (len - 1 - i))) % 256) := by
  simp [toBytesBE, h]

theorem _read_ok (cap adrLen : Nat) (mem : Mem) (len addr : Nat)
    (h1 : addr + len ≤ cap) (h2 : addr < 2 ^ (8 * adrLen)) :
    _read cap adrLen mem len addr =
      .ok ([.statusRead, .fastRead (if adrLen = 4 then 0x0C else 0x0B)
              ((List.range adrLen).map fun i => (addr >>> (8 * (adrLen - 1 - i))) % 256)
              len],
           (List.range len).map fun i => mem (addr + i)) := by
  simp [_read, h1, toBytesBE_ok adrLen addr h2]

theorem _sector_erase_ok (adrLen : Nat) (mem : Mem) (addr : Nat)
    (h : addr < 2 ^ (8 * adrLen)) :
    _sector_erase adrLen mem addr =
      .ok ([.statusRead, .wren, .statusRead,
            .sectorErase ((List.range adrLen).map fun i =>
              (addr >>> (8 * (adrLen - 1 - i))) % 256)],
           fun a => if addr ≤ a ∧ a < addr + SECTOR_SIZE then 0xFF else mem a) := by
  simp [_sector_erase, toBytesBE_ok adrLen addr h]

theorem programPage_out (mem : Mem) (addr : Nat) (data : List Nat) (a : Nat)
    (h : a < addr ∨ addr + data.length ≤ a) : programPage mem addr data a = mem a := by
  simp only [programPage]
  rw [if_neg (by omega)]

theorem programPage_in (mem : Mem) (addr : Nat) (data : List Nat) (a : Nat)
    (h1 : addr ≤ a) (h2 : a < addr + data.length) :
    programPage mem addr data a = mem a &&& data.getD (a - addr) 0 := by
  simp only [programPage]
  rw [if_pos ⟨h1, h2⟩]

theorem pagesTrace_zero (adrLen : Nat) (buf : List Nat) (addr i : Nat) :
    pagesTrace adrLen buf addr i 0 = [] := rfl

/-- Peeling one page off the front of the expected page-program trace. -/
theorem pagesTrace_succ (adrLen : Nat) (buf : List Nat) (addr i k : Nat) :
    pagesTrace adrLen buf addr i (k + 1) =
      [Ev.statusRead, Ev.wren, Ev.statusRead,
       Ev.pageProgram
         ((List.range adrLen).map fun q => (addr >>> (8 * (adrLen - 1 - q))) % 256)
         ((buf.drop i).take 256)] ++
      pagesTrace adrLen buf (addr + 256) (i + 256) k := by
  simp only [pagesTrace]
  rw [List.range_succ_eq_map, List.flatMap_cons, List.flatMap_map]
  have h0 : addr + 0 * 256 = addr := by omega
  have h0i : i + 0 * 256 = i := by omega
  rw [h0, h0i]
  have hcong :
      ((List.range k).flatMap fun p =>
        [Ev.statusRead, Ev.wren, Ev.statusRead,
         Ev.pageProgram
           ((List.range adrLen).map fun q =>
             ((addr + p.succ * 256) >>> (8 * (adrLen - 1 - q))) % 256)
           ((buf.drop (i + p.succ * 256)).take 256)]) =
      (List.range k).flatMap fun p =>
        [Ev.statusRead, Ev.wren, Ev.statusRead,
         Ev.pageProgram
           ((List.range adrLen).map fun q =>
             ((addr + 256 + p * 256) >>> (8 * (adrLen - 1 - q))) % 256)
           ((buf.drop (i + 256 + p * 256)).take 256)] := by
    apply List.flatMap_congr
    intro p _
    have e1 : addr + p.succ * 256 = addr + 256 + p * 256 := by
      simp only [Nat.succ_eq_add_one]
      ring
    have e2 : i + p.succ * 256 = i + 256 + p * 256 := by
      simp only [Nat.succ_eq_add_one]
      ring
    simp only [e1, e2]
  rw [hcong]

/-- Running the page-program fold over `k` full pages starting at buffer
offset `i` issues exactly the expected page trace and programs exactly the
bytes `buf[i : i + k*256]` at consecutive addresses: the resulting memory
ANDs each window byte with the corresponding buffer byte and leaves
everything else unchanged. -/
theorem writeFold_ok (adrLen : Nat) (buf : List Nat) (k : Nat) :
    ∀ i addr mem, i + k * 256 ≤ buf.length →
      addr + k * 256 ≤ 2 ^ (8 * adrLen) →
      ∃ memF,
        writeFold adrLen mem buf addr (List.range' i k PAGE_SIZE) =
          .ok (pagesTrace adrLen buf addr i k, memF) ∧
        ∀ a, memF a =
          if addr ≤ a ∧ a < addr + k * 256 then
            mem a &&& buf.getD (i + (a - addr)) 0
          else mem a := by
  induction k with
  | zero =>
    intro i addr mem _ _
    refine ⟨mem, rfl, ?_⟩
    intro a
    rw [if_neg (by omega)]
  | succ k ih =>
    intro i addr mem hlen hbound
    have haddr : addr < 2 ^ (8 * adrLen) := by
      have : 0 < (k + 1) * 256 := by positivity
      omega
    rw [List.range'_succ, writeFold, toBytesBE_ok adrLen addr haddr]
    simp only
    set chunk := (buf.drop i).take PAGE_SIZE with hchunkdef
    have hchunk : chunk.length = PAGE_SIZE := by
      simp only [hchunkdef, List.length_take, List.length_drop, PAGE_SIZE]
      have : (k + 1) * 256 = k * 256 + 256 := by ring
      omega
    have hgetD : ∀ j, j < 256 → chunk.getD j 0 = buf.getD (i + j) 0 := by
      intro j hj
      rw [List.getD_eq_getElem?_getD, List.getD_eq_getElem?_getD, hchunkdef,
        List.getElem?_take]
      simp only [PAGE_SIZE, hj, if_pos, List.getElem?_drop]
    have hstep : (k + 1) * 256 = k * 256 + 256 := by ring
    obtain ⟨memF, heq, hmem⟩ :=
      ih (i + PAGE_SIZE) (addr + PAGE_SIZE) (programPage mem addr chunk)
        (by simp only [PAGE_SIZE]; omega) (by simp only [PAGE_SIZE]; omega)
    rw [heq]
    refine ⟨memF, ?_, ?_⟩
    · rw [pagesTrace_succ]
      simp only [PAGE_SIZE, hchunkdef]
    intro a
    rw [hmem a]
    simp only [PAGE_SIZE]
    have hchunk256 : chunk.length = 256 := by
      rw [hchunk]
      rfl
    by_cases c1 : a < addr
    · have e1 : ¬(addr + 256 ≤ a ∧ a < addr + 256 + k * 256) := by omega
      have e2 : ¬(addr ≤ a ∧ a < addr + (k + 1) * 256) := by omega
      rw [if_neg e1, if_neg e2, programPage_out mem addr chunk a (Or.inl c1)]
    · by_cases c2 : a < addr + 256
      · have e1 : ¬(addr + 256 ≤ a ∧ a < addr + 256 + k * 256) := by omega
        have e2 : addr ≤ a ∧ a < addr + (k + 1) * 256 := ⟨by omega, by omega⟩
        rw [if_neg e1, if_pos e2,
          programPage_in mem addr chunk a (by omega) (by omega),
          hgetD (a - addr) (by omega)]
      · by_cases c3 : a < addr + (k + 1) * 256
        · have e1 : addr + 256 ≤ a ∧ a < addr + 256 + k * 256 := ⟨by omega, by omega⟩
          have e2 : addr ≤ a ∧ a < addr + (k + 1) * 256 := ⟨by omega, c3⟩
          have e3 : i + 256 + (a - (addr + 256)) = i + (a - addr) := by omega
          rw [if_pos e1, if_pos e2, e3,
            programPage_out mem addr chunk a (Or.inr (by omega))]
        · have e1 : ¬(addr + 256 ≤ a ∧ a < addr + 256 + k * 256) := by omega
          have e2 : ¬(addr ≤ a ∧ a < addr + (k + 1) * 256) := by omega
          rw [if_neg e1, if_neg e2,
            programPage_out mem addr chunk a (Or.inr (by omega))]

/-- `_write` on a page-aligned-to-16 address and page-multiple buffer
succeeds, issues exactly the page trace, and ANDs the buffer over the
window `[addr, addr + len)`. -/
theorem _write_ok (cap adrLen : Nat) (mem : Mem) (buf : List Nat) (addr : Nat)
    (hlen : buf.length % 256 = 0) (haddr : addr &&& 0xf = 0)
    (hcap : addr + buf.length ≤ cap)
    (hbound : addr + buf.length ≤ 2 ^ (8 * adrLen)) :
    ∃ memF, _write cap adrLen mem buf addr =
        .ok (pagesTrace adrLen buf addr 0 (buf.length / 256), memF) ∧
      ∀ a, memF a =
        if addr ≤ a ∧ a < addr + buf.length then
          mem a &&& buf.getD (a - addr) 0
        else mem a := by
  have h1 : ¬(buf.length % PAGE_SIZE ≠ 0) := by
    simp only [PAGE_SIZE]
    omega
  have h2 : ¬(addr &&& 0xf ≠ 0) := by
    simp [haddr]
  have h3 : ¬¬(addr + buf.length ≤ cap) := by
    simp [hcap]
  have hkmul : buf.length / 256 * 256 = buf.length := by omega
  have hk : (buf.length + (PAGE_SIZE - 1)) / PAGE_SIZE = buf.length / 256 := by
    simp only [PAGE_SIZE]
    omega
  obtain ⟨memF, heq, hmem⟩ :=
    writeFold_ok adrLen buf (buf.length / 256) 0 addr mem (by omega) (by omega)
  rw [_write, if_neg h1, if_neg h2, if_neg h3, hk, heq]
  refine ⟨memF, rfl, ?_⟩
  intro a
  rw [hmem a]
  simp only [Nat.zero_add, hkmul]

/-- Index arithmetic of `_writeblock`: `(blocknum << 9) & 0xfff` is the
block's byte offset inside its sector. -/
theorem index_eq (blocknum : Nat) :
    (blocknum <<< 9) &&& 0xfff = blocknum % 8 * 512 := by
  rw [Nat.shiftLeft_eq, show ((0xfff : Nat) = 2 ^ 12 - 1) by norm_num,
    Nat.and_pow_two_sub_one_eq_mod]
  omega

/-- `_writeblock` on a block whose sector lies inside the chip succeeds,
issues exactly the Fast Read / Sector Erase / sixteen-page-program trace;
afterwards the bytes of the written block are the (AND-programmed) buffer
bytes, the other bytes of the sector are re-programmed to their old value
ANDed into an erased page, and everything outside the sector is untouched. -/
theorem _writeblock_ok (cap adrLen : Nat) (mem : Mem) (blocknum : Nat)
    (buf : List Nat) (hbuf : buf.length = 512)
    (hsec : blocknum / 8 * 4096 + 4096 ≤ cap)
    (hbound : cap ≤ 2 ^ (8 * adrLen)) :
    ∃ mem2, _writeblock cap adrLen mem blocknum buf =
      .ok ([Ev.statusRead,
            Ev.fastRead (if adrLen = 4 then 0x0C else 0x0B)
              ((List.range adrLen).map fun q =>
                ((blocknum / 8 * 4096) >>> (8 * (adrLen - 1 - q))) % 256) 4096,
            Ev.statusRead, Ev.wren, Ev.statusRead,
            Ev.sectorErase ((List.range adrLen).map fun q =>
              ((blocknum / 8 * 4096) >>> (8 * (adrLen - 1 - q))) % 256)] ++
           pagesTrace adrLen (sectorCache mem blocknum buf)
             (blocknum / 8 * 4096) 0 16,
           mem2) ∧
      (∀ a, a < blocknum / 8 * 4096 ∨ blocknum / 8 * 4096 + 4096 ≤ a →
        mem2 a = mem a) ∧
      (∀ j, j < 512 → mem2 (blocknum * 512 + j) = 255 &&& buf.getD j 0) ∧
      (∀ o, o < 4096 → o / 512 ≠ blocknum % 8 →
        mem2 (blocknum / 8 * 4096 + o) = 255 &&& mem (blocknum / 8 * 4096 + o)) := by
  have hblk : ¬(buf.length ≠ BLOCK_SIZE) := by
    simp [hbuf, BLOCK_SIZE]
  have hsaddr : blocknum / 8 * 4096 < 2 ^ (8 * adrLen) := by omega
  have hread := _read_ok cap adrLen mem 4096 (blocknum / 8 * 4096)
    (by omega) hsaddr
  have herase := _sector_erase_ok adrLen mem (blocknum / 8 * 4096) hsaddr
  rw [_writeblock, if_neg hblk]
  simp only [SECTOR_SIZE, BLOCK_SIZE, index_eq]
  rw [hread, herase]
  simp only [SECTOR_SIZE]
  set cache : List Nat :=
    (List.range 4096).map (fun i => mem (blocknum / 8 * 4096 + i)) with hcachedef
  have hcachelen : cache.length = 4096 := by
    simp [hcachedef]
  set mem1 : Mem := fun a =>
    if blocknum / 8 * 4096 ≤ a ∧ a < blocknum / 8 * 4096 + 4096 then 0xFF
    else mem a with hmem1def
  set index := blocknum % 8 * 512 with hindexdef
  have hindex : index ≤ 3584 := by
    have : blocknum % 8 < 8 := Nat.mod_lt _ (by norm_num)
    omega
  set cache2 : List Nat := cache.take index ++ buf ++ cache.drop (index + 512)
    with hcache2def
  have hc2len : cache2.length = 4096 := by
    simp [hcache2def, List.length_append, List.length_take, List.length_drop,
      hcachelen, hbuf]
    omega
  have hc2get : ∀ o, o < 4096 →
      cache2.getD o 0 =
        if index ≤ o ∧ o < index + 512 then buf.getD (o - index) 0
        else cache.getD o 0 := by
    intro o ho
    have hto : (cache.take index).length = index := by
      rw [List.length_take]
      omega
    have htb : (cache.take index ++ buf).length = index + 512 := by
      rw [List.length_append, hto, hbuf]
    rw [List.getD_eq_getElem?_getD, hcache2def, List.getElem?_append]
    by_cases hin : o < index + 512
    · rw [if_pos (by rw [htb]; omega), List.getElem?_append]
      by_cases hlo : o < index
      · rw [if_pos (by rw [hto]; omega), List.getElem?_take, if_pos (by omega),
          if_neg (by omega), List.getD_eq_getElem?_getD]
      · rw [if_neg (by rw [hto]; omega), hto, if_pos (by omega),
          List.getD_eq_getElem?_getD]
    · have e : index + 512 + (o - (index + 512)) = o := by omega
      rw [if_neg (by rw [htb]; omega), htb, List.getElem?_drop, e,
        if_neg (by omega), List.getD_eq_getElem?_getD]
  have hcget : ∀ o, o < 4096 →
      cache.getD o 0 = mem (blocknum / 8 * 4096 + o) := by
    intro o ho
    rw [List.getD_eq_getElem?_getD, hcachedef, List.getElem?_map,
      List.getElem?_range ho]
    rfl
  obtain ⟨mem2, hwrite, hmem2⟩ :=
    _write_ok cap adrLen mem1 cache2 (blocknum / 8 * 4096)
      (by rw [hc2len])
      (by rw [show ((0xf : Nat) = 2 ^ 4 - 1) by norm_num,
        Nat.and_pow_two_sub_one_eq_mod]; omega)
      (by rw [hc2len]; omega) (by rw [hc2len]; omega)
  have hsc : sectorCache mem blocknum buf = cache2 := by
    unfold sectorCache
    simp only [SECTOR_SIZE, BLOCK_SIZE, index_eq]
  have hk16 : cache2.length / 256 = 16 := by
    rw [hc2len]
  rw [hwrite, hk16]
  refine ⟨mem2, ?_, ?_, ?_, ?_⟩
  · simp only [hsc, List.cons_append, List.nil_append]
  · intro a ha
    rw [hmem2 a, if_neg (by rw [hc2len]; omega), hmem1def]
    simp only
    rw [if_neg (by omega)]
  · intro j hj
    have hsplit : blocknum * 512 + j = blocknum / 8 * 4096 + (index + j) := by
      rw [hindexdef]
      omega
    rw [hsplit, hmem2 _, if_pos (by rw [hc2len]; omega)]
    have hoff : blocknum / 8 * 4096 + (index + j) - blocknum / 8 * 4096 = index + j := by
      omega
    have hij : index + j - index = j := by omega
    rw [hoff, hc2get (index + j) (by omega), if_pos (by omega), hij, hmem1def]
    simp only
    rw [if_pos (by omega)]
  · intro o ho hno
    rw [hmem2 _, if_pos (by rw [hc2len]; omega)]
    have hoff : blocknum / 8 * 4096 + o - blocknum / 8 * 4096 = o := by omega
    rw [hoff, hc2get o ho, if_neg (by omega), hcget o ho, hmem1def]
    simp only
    rw [if_pos (by omega)]

/-- Python bit length of `2^c - 1` is `c` (for `c ≥ 1`). -/
theorem pyBinLen_pow_sub_one (c : Nat) (h : 1 ≤ c) : pyBinLen (2 ^ c - 1) = c := by
  have hpow : (0 : Nat) < 2 ^ c := pow_pos (by norm_num) c
  have hpow1 : (0 : Nat) < 2 ^ (c - 1) := pow_pos (by norm_num) (c - 1)
  have hmul : 2 ^ (c - 1) * 2 = 2 ^ c := by
    rw [← Nat.pow_succ]
    congr 1
    omega
  have h1 : 2 ^ c - 1 ≠ 0 := by omega
  simp only [pyBinLen, if_neg h1]
  have hlt : Nat.log2 (2 ^ c - 1) < c := by
    rw [Nat.log2_lt h1]
    omega
  have hge : ¬(Nat.log2 (2 ^ c - 1) < c - 1) := by
    rw [Nat.log2_lt h1]
    omega
  omega

/-- The driver's address-width rule on power-of-two capacities. -/
theorem adrLenOf_pow (c : Nat) (h : 1 ≤ c) :
    adrLenOf (2 ^ c) = if c ≤ 24 then 3 else 4 := by
  rw [adrLenOf, pyBinLen_pow_sub_one c h]

/-- Every address below the capacity fits in the chosen address width, as
long as the capacity class is at most 32 (4 GiB). -/
theorem pow_le_adrLen_bound (c : Nat) (h1 : 1 ≤ c) (h2 : c ≤ 32) :
    2 ^ c ≤ 2 ^ (8 * adrLenOf (2 ^ c)) := by
  rw [adrLenOf_pow c h1]
  by_cases h : c ≤ 24
  · rw [if_pos h]
    exact Nat.pow_le_pow_right (by norm_num) (by omega)
  · rw [if_neg h]
    exact Nat.pow_le_pow_right (by norm_num) (by omega)

/-- A valid block number's enclosing sector lies inside the chip, provided
the capacity is at least one sector. -/
theorem sector_bound (c blocknum : Nat) (hc : 12 ≤ c)
    (hbn : blocknum < count (2 ^ c)) :
    blocknum / 8 * 4096 + 4096 ≤ 2 ^ c := by
  have h1 : 2 ^ c = 2 ^ (c - 12) * 4096 := by
    rw [show (4096 : Nat) = 2 ^ 12 by norm_num, ← Nat.pow_add]
    congr 1
    omega
  have h2 : count (2 ^ c) = 2 ^ (c - 12) * 8 := by
    simp only [count, BLOCK_SIZE, h1]
    omega
  rw [h2] at hbn
  rw [h1]
  omega

/-- `blocknum << 9` is `blocknum * 512`. -/
theorem shiftLeft9_eq (blocknum : Nat) : blocknum <<< 9 = blocknum * 512 := by
  rw [Nat.shiftLeft_eq]

/-- `writeblocks` with a single 512-byte block is one `_writeblock` call. -/
theorem writeblocks_single (cap adrLen : Nat) (mem : Mem) (blocknum : Nat)
    (buf : List Nat) (h : buf.length = 512) :
    writeblocks cap adrLen mem blocknum buf =
      _writeblock cap adrLen mem blocknum buf := by
  rw [writeblocks]
  simp only [h, BLOCK_SIZE]
  norm_num

/-- `readblocks` into a single 512-byte buffer is one Fast Read of the
block's 512 bytes. -/
theorem readblocks_single (cap adrLen : Nat) (mem : Mem) (blocknum : Nat)
    (hcap : blocknum * 512 + 512 ≤ cap) (hbound : cap ≤ 2 ^ (8 * adrLen)) :
    readblocks cap adrLen mem blocknum 512 =
      .ok ([.statusRead, .fastRead (if adrLen = 4 then 0x0C else 0x0B)
              ((List.range adrLen).map fun i =>
                ((blocknum * 512) >>> (8 * (adrLen - 1 - i))) % 256)
              512],
           (List.range 512).map fun i => mem (blocknum * 512 + i)) := by
  rw [readblocks]
  simp only [BLOCK_SIZE]
  norm_num
  rw [shiftLeft9_eq]
  exact _read_ok cap adrLen mem 512 (blocknum * 512) hcap (by omega)

/-- C1 (amended): on an identified device whose capacity 2^c holds at least
one sector and whose addresses fit the chosen address width
(12 ≤ c ≤ 32), for every block number below `count()` and every 512-byte
payload of real bytes, `writeblocks` succeeds and a subsequent `readblocks`
of that block returns exactly the payload. -/
theorem claim_C1 (c blocknum : Nat) (mem : Mem) (P : List Nat)
    (hc1 : 12 ≤ c) (hc2 : c ≤ 32)
    (hbn : blocknum < count (2 ^ c))
    (hP : P.length = 512) (hPb : ∀ x ∈ P, x < 256) :
    ∃ tr mem2 tr2,
      writeblocks (2 ^ c) (adrLenOf (2 ^ c)) mem blocknum P = .ok (tr, mem2) ∧
      readblocks (2 ^ c) (adrLenOf (2 ^ c)) mem2 blocknum 512 = .ok (tr2, P) := by
  have hsec := sector_bound c blocknum hc1 hbn
  have hbound := pow_le_adrLen_bound c (by omega) hc2
  obtain ⟨mem2, hwb, _hout, hblock, _hnb⟩ :=
    _writeblock_ok (2 ^ c) (adrLenOf (2 ^ c)) mem blocknum P hP hsec hbound
  have hcap2 : blocknum * 512 + 512 ≤ 2 ^ c := by omega
  have hr := readblocks_single (2 ^ c) (adrLenOf (2 ^ c)) mem2 blocknum hcap2 hbound
  have hlist : ((List.range 512).map fun i => mem2 (blocknum * 512 + i)) = P := by
    apply List.ext_getElem
    · simp [hP]
    · intro j h1 h2
      have hj : j < 512 := by simpa using h1
      simp only [List.getElem_map, List.getElem_range]
      rw [hblock j hj]
      have hPj : P.getD j 0 = P[j] := by
        rw [List.getD_eq_getElem?_getD, List.getElem?_eq_getElem h2,
          Option.getD_some]
      rw [hPj, and255_of_lt _ (hPb _ (P.getElem_mem h2))]
  rw [← writeblocks_single (2 ^ c) (adrLenOf (2 ^ c)) mem blocknum P hP] at hwb
  exact ⟨_, mem2, _, hwb, by rw [hr, hlist]⟩

/-- Witness for C1: 16 MB chip, block 3, payload of 512 bytes 0xA5. -/
theorem claim_C1_witness :
    ∃ tr mem2 tr2,
      writeblocks (2 ^ 24) (adrLenOf (2 ^ 24)) (fun _ => 255) 3
          (List.replicate 512 0xA5) = .ok (tr, mem2) ∧
      readblocks (2 ^ 24) (adrLenOf (2 ^ 24)) mem2 3 512 =
        .ok (tr2, List.replicate 512 0xA5) :=
  claim_C1 24 3 (fun _ => 255) (List.replicate 512 0xA5)
    (by norm_num) (by norm_num)
    (by decide)
    (by rw [List.length_replicate])
    (by
      intro x hx
      rw [List.eq_of_mem_replicate hx]
      norm_num)

set_option maxRecDepth 40000 in
/-- Counterexample to C1 as stated: the JEDEC capacity byte 0x09 identifies
without error (capacity 512, one block, so blocknum 0 is in [0, count)), yet
`writeblocks(0, P)` aborts with the `_read` range assertion because the
sector-sized cache read does not fit in the 512-byte chip. -/
theorem claim_C1_counterexample :
    (identify initIdState 0xEF 0x40 0x9).2 = none ∧
    (identify initIdState 0xEF 0x40 0x9).1.capacity = 2 ^ 9 ∧
    count (2 ^ 9) = 1 ∧
    writeblocks (2 ^ 9) (adrLenOf (2 ^ 9)) (fun _ => 255) 0
      (List.replicate 512 0) = .error "memory not addressable" :=
  ⟨rfl, rfl, rfl, rfl⟩

/-- C2: writing block `b` preserves every byte of any other block `k` of
the same sector, and in particular a marker previously written to `k` is
read back unchanged after the write to `b`. -/
theorem claim_C2 (c b k : Nat) (mem : Mem) (M P : List Nat)
    (hc1 : 12 ≤ c) (hc2 : c ≤ 32)
    (hbk : b < count (2 ^ c))
    (hne : b ≠ k) (hsame : b / 8 = k / 8)
    (hM : M.length = 512) (hMb : ∀ x ∈ M, x < 256)
    (hP : P.length = 512)
    (hmem : ∀ a, mem a < 256) :
    (∀ tr mem2, writeblocks (2 ^ c) (adrLenOf (2 ^ c)) mem b P = .ok (tr, mem2) →
      ∀ j, j < 512 → mem2 (k * 512 + j) = mem (k * 512 + j)) ∧
    ∃ tr1 mem1 tr2 mem2 tr3,
      writeblocks (2 ^ c) (adrLenOf (2 ^ c)) mem k M = .ok (tr1, mem1) ∧
      writeblocks (2 ^ c) (adrLenOf (2 ^ c)) mem1 b P = .ok (tr2, mem2) ∧
      readblocks (2 ^ c) (adrLenOf (2 ^ c)) mem2 k 512 = .ok (tr3, M) := by
  have hsecb := sector_bound c b hc1 hbk
  have hseck : k / 8 * 4096 + 4096 ≤ 2 ^ c := by
    rw [← hsame]
    exact hsecb
  have hbound := pow_le_adrLen_bound c (by omega) hc2
  have hmod : b % 8 ≠ k % 8 := by omega
  have hkaddr : ∀ j, j < 512 → k * 512 + j = b / 8 * 4096 + (k % 8 * 512 + j) := by
    intro j _
    rw [hsame]
    omega
  have hko : ∀ j, j < 512 → (k % 8 * 512 + j) / 512 ≠ b % 8 := by
    intro j hj
    have h8 : k % 8 < 8 := Nat.mod_lt _ (by norm_num)
    have : (k % 8 * 512 + j) / 512 = k % 8 := by omega
    omega
  constructor
  · intro tr mem2 hw
    obtain ⟨mem0, hwb0, _h1, _h2, hnb0⟩ :=
      _writeblock_ok (2 ^ c) (adrLenOf (2 ^ c)) mem b P hP hsecb hbound
    rw [writeblocks_single _ _ _ _ _ hP, hwb0] at hw
    simp only [Except.ok.injEq, Prod.mk.injEq] at hw
    obtain ⟨_, h2⟩ := hw
    subst h2
    intro j hj
    rw [hkaddr j hj, hnb0 (k % 8 * 512 + j) (by
        have h8 : k % 8 < 8 := Nat.mod_lt _ (by norm_num)
        omega) (hko j hj),
      and255_of_lt _ (hmem _)]
  · obtain ⟨mem1, hwb1, _hA, hblk1, _hC⟩ :=
      _writeblock_ok (2 ^ c) (adrLenOf (2 ^ c)) mem k M hM hseck hbound
    obtain ⟨mem2, hwb2, _hD, _hE, hnb2⟩ :=
      _writeblock_ok (2 ^ c) (adrLenOf (2 ^ c)) mem1 b P hP hsecb hbound
    have hkcap : k * 512 + 512 ≤ 2 ^ c := by omega
    have hr := readblocks_single (2 ^ c) (adrLenOf (2 ^ c)) mem2 k hkcap hbound
    have hlist : ((List.range 512).map fun i => mem2 (k * 512 + i)) = M := by
      apply List.ext_getElem
      · simp [hM]
      · intro j h1 h2
        have hj : j < 512 := by simpa using h1
        simp only [List.getElem_map, List.getElem_range]
        have hMj : M.getD j 0 = M[j] := by
          rw [List.getD_eq_getElem?_getD, List.getElem?_eq_getElem h2,
            Option.getD_some]
        have hMjlt : M[j] < 256 := hMb _ (M.getElem_mem h2)
        rw [hkaddr j hj, hnb2 (k % 8 * 512 + j) (by
            have h8 : k % 8 < 8 := Nat.mod_lt _ (by norm_num)
            omega) (hko j hj),
          ← hkaddr j hj, hblk1 j hj, hMj,
          and255_of_lt _ hMjlt, and255_of_lt _ hMjlt]
    rw [← writeblocks_single (2 ^ c) (adrLenOf (2 ^ c)) mem k M hM] at hwb1
    rw [← writeblocks_single (2 ^ c) (adrLenOf (2 ^ c)) mem1 b P hP] at hwb2
    exact ⟨_, mem1, _, mem2, _, hwb1, hwb2, by rw [hr, hlist]⟩

/-- Witness for C2: 16 MB chip, blocks 0 and 7 of sector 0, markers 0x11
and 0x22 (the spec's scenario 5 shape). -/
theorem claim_C2_witness :
    (∀ tr mem2, writeblocks (2 ^ 24) (adrLenOf (2 ^ 24)) (fun _ => 255) 7
        (List.replicate 512 0x22) = .ok (tr, mem2) →
      ∀ j, j < 512 → mem2 (0 * 512 + j) = 255) ∧
    ∃ tr1 mem1 tr2 mem2 tr3,
      writeblocks (2 ^ 24) (adrLenOf (2 ^ 24)) (fun _ => 255) 0
        (List.replicate 512 0x11) = .ok (tr1, mem1) ∧
      writeblocks (2 ^ 24) (adrLenOf (2 ^ 24)) mem1 7
        (List.replicate 512 0x22) = .ok (tr2, mem2) ∧
      readblocks (2 ^ 24) (adrLenOf (2 ^ 24)) mem2 0 512 =
        .ok (tr3, List.replicate 512 0x11) := by
  have h := claim_C2 24 7 0 (fun _ => 255)
    (List.replicate 512 0x11) (List.replicate 512 0x22)
    (by norm_num) (by norm_num) (by decide) (by norm_num) (by norm_num)
    (by rw [List.length_replicate])
    (by
      intro x hx
      rw [List.eq_of_mem_replicate hx]
      norm_num)
    (by rw [List.length_replicate])
    (fun _ => by norm_num)
  exact h

/-- A slice of a list whose bytes are constant over the slice window is a
replicate. -/
theorem drop_take_eq_replicate (l : List Nat) (d t v : Nat)
    (hdt : d + t ≤ l.length)
    (h : ∀ q, q < t → l.getD (d + q) 0 = v) :
    (l.drop d).take t = List.replicate t v := by
  apply List.ext_getElem?
  intro q
  by_cases hq : q < t
  · rw [List.getElem?_take, if_pos hq, List.getElem?_drop,
      List.getElem?_replicate, if_pos hq]
    have hv := h q hq
    have hlt : d + q < l.length := by omega
    rw [List.getD_eq_getElem?_getD, List.getElem?_eq_getElem hlt,
      Option.getD_some] at hv
    rw [List.getElem?_eq_getElem hlt, hv]
  · rw [List.getElem?_take, if_neg hq, List.getElem?_replicate, if_neg hq]

/-- Length of the overlaid sector cache. -/
theorem sectorCache_length (mem : Mem) (blocknum : Nat) (buf : List Nat)
    (hbuf : buf.length = 512) :
    (sectorCache mem blocknum buf).length = 4096 := by
  have h8 : blocknum % 8 < 8 := Nat.mod_lt _ (by norm_num)
  unfold sectorCache
  simp only [SECTOR_SIZE, BLOCK_SIZE, index_eq, List.length_append,
    List.length_take, List.length_drop, List.length_map, List.length_range,
    hbuf]
  omega

/-- Byte `o` of the overlaid sector cache: the caller buffer inside the
block window, the chip byte elsewhere. -/
theorem sectorCache_getD (mem : Mem) (blocknum : Nat) (buf : List Nat)
    (hbuf : buf.length = 512) (o : Nat) (ho : o < 4096) :
    (sectorCache mem blocknum buf).getD o 0 =
      if blocknum % 8 * 512 ≤ o ∧ o < blocknum % 8 * 512 + 512 then
        buf.getD (o - blocknum % 8 * 512) 0
      else mem (blocknum / 8 * 4096 + o) := by
  have h8 : blocknum % 8 < 8 := Nat.mod_lt _ (by norm_num)
  unfold sectorCache
  simp only [SECTOR_SIZE, BLOCK_SIZE, index_eq]
  set cache : List Nat :=
    (List.range 4096).map (fun i => mem (blocknum / 8 * 4096 + i)) with hcachedef
  have hcachelen : cache.length = 4096 := by
    simp [hcachedef]
  set index := blocknum % 8 * 512 with hindexdef
  have hindex : index ≤ 3584 := by omega
  have hcget : ∀ q, q < 4096 → cache.getD q 0 = mem (blocknum / 8 * 4096 + q) := by
    intro q hq
    rw [List.getD_eq_getElem?_getD, hcachedef, List.getElem?_map,
      List.getElem?_range hq]
    rfl
  have hto : (cache.take index).length = index := by
    rw [List.length_take]
    omega
  have htb : (cache.take index ++ buf).length = index + 512 := by
    rw [List.length_append, hto, hbuf]
  rw [List.getD_eq_getElem?_getD, List.getElem?_append]
  by_cases hin : o < index + 512
  · rw [if_pos (by rw [htb]; omega), List.getElem?_append]
    by_cases hlo : o < index
    · rw [if_pos (by rw [hto]; omega), List.getElem?_take, if_pos (by omega),
        if_neg (by omega), ← List.getD_eq_getElem?_getD]
      exact hcget o (by omega)
    · rw [if_neg (by rw [hto]; omega), hto, if_pos (by omega),
        List.getD_eq_getElem?_getD]
  · have e : index + 512 + (o - (index + 512)) = o := by omega
    rw [if_neg (by rw [htb]; omega), htb, List.getElem?_drop, e,
      if_neg (by omega), ← List.getD_eq_getElem?_getD]
    exact hcget o ho

/-- Byte value of a replicate via `getD`. -/
theorem getD_replicate (n a j : Nat) (h : j < n) :
    (List.replicate n a).getD j 0 = a := by
  rw [List.getD_eq_getElem?_getD, List.getElem?_replicate, if_pos h,
    Option.getD_some]

/-- Page chunk `p` of the scenario-4 sector cache (erased chip, 0xA5 block
at blocknum 3): pages 6 and 7 carry the payload, the rest 0xFF. -/
theorem scenario4_chunk (p : Nat) (hp : p < 16) :
    ((sectorCache (fun _ => 255) 3 (List.replicate 512 0xA5)).drop (p * 256)).take 256 =
      List.replicate 256 (if p = 6 ∨ p = 7 then 0xA5 else 0xFF) := by
  have hlen : (List.replicate 512 (0xA5 : Nat)).length = 512 := by
    rw [List.length_replicate]
  apply drop_take_eq_replicate
  · rw [sectorCache_length _ _ _ hlen]
    omega
  · intro q hq
    rw [sectorCache_getD _ _ _ hlen _ (by omega)]
    rw [show (3 : Nat) % 8 * 512 = 1536 from rfl]
    by_cases h67 : p = 6 ∨ p = 7
    · rw [if_pos (by omega), getD_replicate _ _ _ (by omega), if_pos h67]
    · rw [if_neg (by omega), if_neg h67]

/-- The 3-byte big-endian serialization of page address `p * 256` for
`p < 16` is `[0, p, 0]`. -/
theorem scenario4_addr (p : Nat) (hp : p < 16) :
    ((List.range 3).map fun q => ((p * 256) >>> (8 * (3 - 1 - q))) % 256) =
      [0, p, 0] := by
  have e0 : ((p * 256) >>> 16) % 256 = 0 := by
    rw [Nat.shiftRight_eq_div_pow, show (2 : Nat) ^ 16 = 65536 by norm_num]
    omega
  have e1 : ((p * 256) >>> 8) % 256 = p := by
    rw [Nat.shiftRight_eq_div_pow, show (2 : Nat) ^ 8 = 256 by norm_num]
    omega
  have e2 : ((p * 256) >>> 0) % 256 = 0 := by
    rw [Nat.shiftRight_eq_div_pow, show (2 : Nat) ^ 0 = 1 by norm_num]
    omega
  show [((p * 256) >>> (8 * (3 - 1 - 0))) % 256,
        ((p * 256) >>> (8 * (3 - 1 - 1))) % 256,
        ((p * 256) >>> (8 * (3 - 1 - 2))) % 256] = [0, p, 0]
  rw [show (8 * (3 - 1 - 0)) = 16 from rfl, show (8 * (3 - 1 - 1)) = 8 from rfl,
    show (8 * (3 - 1 - 2)) = 0 from rfl, e0, e1, e2]

/-- The full SPI trace of the spec's scenario 4 (single-block write of
block 3 on an erased 16 MB chip). -/
theorem scenario4_trace :
    ((writeblocks (2 ^ 24) (adrLenOf (2 ^ 24)) (fun _ => 255) 3
        (List.replicate 512 0xA5)).map fun r => r.1) =
      .ok ([Ev.statusRead, Ev.fastRead 0x0B [0, 0, 0] 4096,
            Ev.statusRead, Ev.wren, Ev.statusRead, Ev.sectorErase [0, 0, 0]] ++
           ((List.range 16).flatMap fun p =>
             [Ev.statusRead, Ev.wren, Ev.statusRead,
              Ev.pageProgram [0, p, 0]
                (List.replicate 256 (if p = 6 ∨ p = 7 then 0xA5 else 0xFF))])) := by
  have h3 : adrLenOf (2 ^ 24) = 3 := by
    rw [adrLenOf_pow 24 (by norm_num)]
    norm_num
  have hlen : (List.replicate 512 (0xA5 : Nat)).length = 512 := by
    rw [List.length_replicate]
  obtain ⟨mem2, hwb, _, _, _⟩ :=
    _writeblock_ok (2 ^ 24) 3 (fun _ => 255) 3 (List.replicate 512 0xA5)
      hlen (by norm_num) (by norm_num)
  rw [h3, writeblocks_single _ _ _ _ _ hlen, hwb]
  simp only [Except.map]
  have hsa : (3 : Nat) / 8 * 4096 = 0 := by norm_num
  rw [hsa]
  have hpt : pagesTrace 3 (sectorCache (fun _ => 255) 3 (List.replicate 512 0xA5)) 0 0 16 =
      (List.range 16).flatMap fun p =>
        [Ev.statusRead, Ev.wren, Ev.statusRead,
         Ev.pageProgram [0, p, 0]
           (List.replicate 256 (if p = 6 ∨ p = 7 then 0xA5 else 0xFF))] := by
    unfold pagesTrace
    apply List.flatMap_congr
    intro p hp
    rw [List.mem_range] at hp
    have hz : (0 : Nat) + p * 256 = p * 256 := by omega
    rw [hz, scenario4_addr p hp, scenario4_chunk p hp]
  rw [hpt]
  rw [show ((List.range 3).map fun q => ((0 : Nat) >>> (8 * (3 - 1 - q))) % 256) =
    [0, 0, 0] from rfl]
  rw [show (if (3 : Nat) = 4 then 0x0C else 0x0B) = 0x0B from rfl]

/-- Counterexample to C3 as stated: in the claim's exact scenario (erased
16 MB chip, `writeblocks(3, bytes([0xA5]*512))`), the driver issues sixteen
Page Programs — the whole 4096-byte sector is reprogrammed — not eight. -/
theorem claim_C3_counterexample :
    ((writeblocks (2 ^ 24) (adrLenOf (2 ^ 24)) (fun _ => 255) 3
        (List.replicate 512 0xA5)).map fun r => r.1.countP isPageProgramEv) =
      .ok 16 ∧ (16 : Nat) ≠ 8 := by
  constructor
  · have h := scenario4_trace
    cases hw : writeblocks (2 ^ 24) (adrLenOf (2 ^ 24)) (fun _ => 255) 3
        (List.replicate 512 0xA5) with
    | error e =>
      rw [hw] at h
      simp only [Except.map] at h
      exact Except.noConfusion h
    | ok r =>
      rw [hw] at h
      simp only [Except.map, Except.ok.injEq] at h ⊢
      rw [h]
      decide
  · norm_num

/-- C3 (amended): the single-block write of block 3 on an erased 16 MB chip
issues exactly: a Fast Read (opcode 0x0B, 3-byte address 0x000000) of the
whole 4096-byte sector, a Sector Erase at 0x000000 (preceded by WREN and
await), then sixteen Page Programs at 0x0000, 0x0100, …, 0x0F00, each
preceded by WREN and await, pages 6 and 7 carrying the 0xA5 payload and the
others the erased 0xFF bytes. -/
theorem claim_C3 :
    ((writeblocks (2 ^ 24) (adrLenOf (2 ^ 24)) (fun _ => 255) 3
        (List.replicate 512 0xA5)).map fun r => r.1) =
      .ok ([Ev.statusRead, Ev.fastRead 0x0B [0, 0, 0] 4096,
            Ev.statusRead, Ev.wren, Ev.statusRead, Ev.sectorErase [0, 0, 0]] ++
           ((List.range 16).flatMap fun p =>
             [Ev.statusRead, Ev.wren, Ev.statusRead,
              Ev.pageProgram [0, p, 0]
                (List.replicate 256 (if p = 6 ∨ p = 7 then 0xA5 else 0xFF))])) :=
  scenario4_trace

/-- C4: address-width selection and 4-byte-mode entry.  The width is 3 iff
`capacity - 1` fits in 24 bits; a 16 MB part gets width 3, never issues
0xB7 during construction, and Fast Reads use opcode 0x0B with 3-byte
big-endian addresses; a 32 MB part gets width 4, issues 0xB7 exactly once
during construction when SR3 bit 0 is clear (and not at all when it is
already set), and Fast Reads use opcode 0x0C with 4-byte big-endian
addresses. -/
theorem claim_C4 :
    adrLenOf (2 ^ 24) = 3 ∧
    adrLenOf (2 ^ 25) = 4 ∧
    (∀ c, 1 ≤ c → adrLenOf (2 ^ c) = if 2 ^ c - 1 < 2 ^ 24 then 3 else 4) ∧
    (∀ (sr : Bool) (regs : Nat → Nat),
      (constructTrace sr (2 ^ 24) regs).countP isEnter4Ev = 0) ∧
    (∀ (sr : Bool) (regs : Nat → Nat), readStatusReg regs 16 = 0 →
      (constructTrace sr (2 ^ 25) regs).countP isEnter4Ev = 1) ∧
    (∀ (sr : Bool) (regs : Nat → Nat), readStatusReg regs 16 ≠ 0 →
      (constructTrace sr (2 ^ 25) regs).countP isEnter4Ev = 0) ∧
    (∀ (mem : Mem) (len addr : Nat), addr + len ≤ 2 ^ 24 → addr < 2 ^ 24 →
      ((_read (2 ^ 24) (adrLenOf (2 ^ 24)) mem len addr).map fun r => r.1) =
        .ok [Ev.statusRead, Ev.fastRead 0x0B
          ((List.range 3).map fun q => (addr >>> (8 * (3 - 1 - q))) % 256) len]) ∧
    (∀ (mem : Mem) (len addr : Nat), addr + len ≤ 2 ^ 25 → addr < 2 ^ 32 →
      ((_read (2 ^ 25) (adrLenOf (2 ^ 25)) mem len addr).map fun r => r.1) =
        .ok [Ev.statusRead, Ev.fastRead 0x0C
          ((List.range 4).map fun q => (addr >>> (8 * (4 - 1 - q))) % 256) len]) := by
  have h24 : adrLenOf (2 ^ 24) = 3 := by
    rw [adrLenOf_pow 24 (by norm_num)]
    norm_num
  have h25 : adrLenOf (2 ^ 25) = 4 := by
    rw [adrLenOf_pow 25 (by norm_num)]
    norm_num
  refine ⟨h24, h25, ?_, ?_, ?_, ?_, ?_, ?_⟩
  · intro c hc
    rw [adrLenOf_pow c hc]
    by_cases h : c ≤ 24
    · have hle : 2 ^ c ≤ 2 ^ 24 := Nat.pow_le_pow_right (by norm_num) h
      have hpos : (0 : Nat) < 2 ^ c := pow_pos (by norm_num) c
      rw [if_pos h, if_pos (by omega)]
    · have hge : 2 ^ 25 ≤ 2 ^ c := Nat.pow_le_pow_right (by norm_num) (by omega)
      have h2 : (2 : Nat) ^ 25 = 2 * 2 ^ 24 := by norm_num
      rw [if_neg h, if_neg (by omega)]
  · intro sr regs
    have hms : modeSetup (adrLenOf (2 ^ 24)) regs = [] := by
      rw [h24]
      simp [modeSetup]
    simp only [constructTrace, hms]
    cases sr <;> rfl
  · intro sr regs h
    have hms : modeSetup (adrLenOf (2 ^ 25)) regs =
        [Ev.readSR 2, Ev.statusRead, Ev.enter4Byte] := by
      rw [h25]
      simp [modeSetup, h]
    simp only [constructTrace, hms]
    cases sr <;> rfl
  · intro sr regs h
    have hms : modeSetup (adrLenOf (2 ^ 25)) regs = [Ev.readSR 2] := by
      rw [h25]
      simp [modeSetup, h]
    simp only [constructTrace, hms]
    cases sr <;> rfl
  · intro mem len addr hcap haddr
    rw [h24, _read_ok (2 ^ 24) 3 mem len addr hcap
      (by rw [show (2 : Nat) ^ (8 * 3) = 2 ^ 24 by norm_num]; exact haddr)]
    rw [show (if (3 : Nat) = 4 then 0x0C else 0x0B) = 0x0B from rfl]
    rfl
  · intro mem len addr hcap haddr
    rw [h25, _read_ok (2 ^ 25) 4 mem len addr hcap
      (by rw [show (2 : Nat) ^ (8 * 4) = 2 ^ 32 by norm_num]; exact haddr)]
    rw [show (if (4 : Nat) = 4 then 0x0C else 0x0B) = 0x0C from rfl]
    rfl

/-- Witness for C4: a 16 MB Fast Read at address 0 and a 32 MB Fast Read
at 0x123456, plus one 0xB7 during 32 MB construction with SR3 bit 0
clear. -/
theorem claim_C4_witness :
    adrLenOf (2 ^ 24) = 3 ∧
    (constructTrace true (2 ^ 25) (fun _ => 0)).countP isEnter4Ev = 1 ∧
    ((_read (2 ^ 24) (adrLenOf (2 ^ 24)) (fun _ => 255) 4096 0).map fun r => r.1) =
      .ok [Ev.statusRead, Ev.fastRead 0x0B
        ((List.range 3).map fun q => ((0 : Nat) >>> (8 * (3 - 1 - q))) % 256) 4096] ∧
    ((_read (2 ^ 25) (adrLenOf (2 ^ 25)) (fun _ => 255) 4096 0x123456).map fun r => r.1) =
      .ok [Ev.statusRead, Ev.fastRead 0x0C
        ((List.range 4).map fun q => ((0x123456 : Nat) >>> (8 * (4 - 1 - q))) % 256) 4096] :=
  ⟨claim_C4.1,
   claim_C4.2.2.2.2.1 true (fun _ => 0) rfl,
   claim_C4.2.2.2.2.2.2.1 (fun _ => 255) 4096 0 (by norm_num) (by norm_num),
   claim_C4.2.2.2.2.2.2.2 (fun _ => 255) 4096 0x123456 (by norm_num) (by norm_num)⟩

/-- If SR1 bit 0 reads 1 on every poll, the loop sleeps once per remaining
retry and then raises with CS still asserted. -/
theorem awaitGo_stuck (status : Nat → Nat) (hbusy : ∀ n, status n &&& 1 = 1) :
    ∀ rem readIdx, awaitGo status readIdx rem = ⟨false, rem, false⟩ := by
  intro rem
  induction rem with
  | zero =>
    intro readIdx
    simp [awaitGo, hbusy readIdx]
  | succ n ih =>
    intro readIdx
    simp [awaitGo, hbusy readIdx, ih (readIdx + 1)]

/-- Counterexample to C5 as stated: with SR1 stuck busy, `_await` raises
after 21 sleeps but leaves the chip-select line asserted (low) — `cs(1)`
after the loop is never reached — not de-asserted as claimed. -/
theorem claim_C5_counterexample :
    (awaitRun (fun _ => 1)).ok = false ∧
    (awaitRun (fun _ => 1)).sleeps = 21 ∧
    (awaitRun (fun _ => 1)).csHigh = false := by
  decide

/-- C5 (amended): if SR1 bit 0 reads 1 on every poll, `_await` raises the
device-stuck-busy error after 21 sleeps of ~100 ms (more than 20 retries,
about 2 s), and the chip-select line is left asserted — the SPI transaction
is NOT closed (the source only drives CS high after the loop exits). -/
theorem claim_C5 (status : Nat → Nat) (hbusy : ∀ n, status n &&& 1 = 1) :
    awaitRun status = ⟨false, 21, false⟩ :=
  awaitGo_stuck status hbusy 21 0

/-- Witness for C5: the constant-0x01 status register. -/
theorem claim_C5_witness : awaitRun (fun _ => 1) = ⟨false, 21, false⟩ :=
  claim_C5 (fun _ => 1) (fun _ => Nat.and_self 1)

/-- C6 (amended): for a buffer shorter than one block, `writeblocks` makes
exactly one `_writeblock` call, whose argument is the caller bytes followed
by 0xFF padding up to 512 — a full 512-byte slice.  (For non-multiple
lengths above 512 the call fails instead; see the counterexample.) -/
theorem claim_C6 (cap adrLen : Nat) (mem : Mem) (blocknum : Nat)
    (buf : List Nat) (h1 : 0 < buf.length) (h2 : buf.length < 512) :
    writeblocks cap adrLen mem blocknum buf =
      _writeblock cap adrLen mem blocknum
        (buf ++ List.replicate (512 - buf.length) 0xFF) ∧
    (buf ++ List.replicate (512 - buf.length) 0xFF).length = 512 := by
  have hb2len : (buf ++ List.replicate (512 - buf.length) 0xFF).length = 512 := by
    rw [List.length_append, List.length_replicate]
    omega
  refine ⟨?_, hb2len⟩
  rw [writeblocks]
  simp only [BLOCK_SIZE]
  rw [if_pos (show buf.length % 512 ≠ 0 by omega),
    if_neg (show ¬(buf.length = 512) by omega)]
  have hone : (buf.length + (512 - 1)) / 512 = 1 := by omega
  rw [hone, show List.range' 0 1 512 = [0] from rfl]
  rw [wbLoop]
  simp only [BLOCK_SIZE]
  rw [List.drop_zero, List.take_of_length_le (le_of_eq hb2len)]
  cases hwb : _writeblock cap adrLen mem blocknum
      (buf ++ List.replicate (512 - buf.length) 0xFF) with
  | error e => rfl
  | ok r =>
    obtain ⟨tr, m⟩ := r
    simp [wbLoop]

/-- Witness for C6: a 100-byte buffer is padded with 412 bytes of 0xFF. -/
theorem claim_C6_witness :
    writeblocks (2 ^ 24) 3 (fun _ => 255) 0 (List.replicate 100 7) =
      _writeblock (2 ^ 24) 3 (fun _ => 255) 0
        (List.replicate 100 7 ++ List.replicate (512 - (List.replicate 100 7).length) 0xFF) ∧
    (List.replicate 100 7 ++
      List.replicate (512 - (List.replicate 100 7).length) 0xFF).length = 512 :=
  claim_C6 (2 ^ 24) 3 (fun _ => 255) 0 (List.replicate 100 7)
    (by rw [List.length_replicate]; norm_num)
    (by rw [List.length_replicate]; norm_num)

set_option maxRecDepth 100000 in
/-- Counterexample to C6 as stated: a 700-byte buffer (not a multiple of
512, longer than one block) is NOT padded — the source computes
`BLOCK_SIZE - buf_len`, negative in Python, so zero bytes are appended —
and the second loop iteration hands `_writeblock` a 188-byte slice, which
aborts with the block-length assertion. -/
theorem claim_C6_counterexample :
    writeblocks (2 ^ 24) (adrLenOf (2 ^ 24)) (fun _ => 255) 0
      (List.replicate 700 0) = .error "invalid block length" ∧
    (700 : Nat) % 512 ≠ 0 := by
  have h3 : adrLenOf (2 ^ 24) = 3 := by
    rw [adrLenOf_pow 24 (by norm_num)]
    norm_num
  refine ⟨?_, by norm_num⟩
  rw [h3, writeblocks]
  simp only [BLOCK_SIZE, List.length_replicate]
  rw [if_pos (show (700 : Nat) % 512 ≠ 0 by norm_num),
    if_neg (show ¬(700 : Nat) = 512 by norm_num),
    show (512 : Nat) - 700 = 0 from rfl, List.replicate_zero, List.append_nil,
    show List.range' 0 ((700 + (512 - 1)) / 512) 512 = [0, 512] from rfl]
  obtain ⟨m1, hwb1, _, _, _⟩ :=
    _writeblock_ok (2 ^ 24) 3 (fun _ => 255) 0 (List.replicate 512 0)
      (by rw [List.length_replicate]) (by norm_num) (by norm_num)
  simp only [wbLoop, BLOCK_SIZE]
  rw [List.drop_zero,
    show (List.replicate 700 (0 : Nat)).take 512 = List.replicate 512 0 from by
      rw [List.take_replicate]
      norm_num, hwb1]
  simp only [wbLoop, BLOCK_SIZE]
  rw [show (List.replicate 700 (0 : Nat)).drop 512 = List.replicate 188 0 from by
      rw [List.drop_replicate],
    show (List.replicate 188 (0 : Nat)).take 512 = List.replicate 188 0 from
      List.take_of_length_le (by rw [List.length_replicate]; norm_num)]
  rw [_writeblock]
  rw [if_pos (show (List.replicate 188 (0 : Nat)).length ≠ BLOCK_SIZE by
    rw [List.length_replicate]
    simp [BLOCK_SIZE])]

/-- C7 (amended): on every identified capacity of at least one block
(capacity class ≥ 9), `count()` is `capacity / 512` and multiplying back
recovers the capacity exactly. -/
theorem claim_C7 (c : Nat) (h : 9 ≤ c) :
    count (2 ^ c) = 2 ^ c / 512 ∧ count (2 ^ c) * 512 = 2 ^ c := by
  have hsplit : 2 ^ c = 2 ^ (c - 9) * 512 := by
    rw [show (512 : Nat) = 2 ^ 9 by norm_num, ← Nat.pow_add]
    congr 1
    omega
  refine ⟨rfl, ?_⟩
  simp only [count, BLOCK_SIZE]
  omega

/-- Witness for C7: the 16 MB part. -/
theorem claim_C7_witness :
    count (2 ^ 24) = 2 ^ 24 / 512 ∧ count (2 ^ 24) * 512 = 2 ^ 24 :=
  claim_C7 24 (by norm_num)

/-- Counterexample to C7 as stated: capacity class 1 identifies without
error (capacity 2 bytes), yet `count() * 512 = 0 ≠ 2`. -/
theorem claim_C7_counterexample :
    count (2 ^ 1) * 512 ≠ 2 ^ 1 ∧
    (identify initIdState 0xEF 0x40 1).2 = none := by
  refine ⟨by decide, rfl⟩

/-- Counterexample to C8 as stated: in the scenario-4 write, the very last
SPI transaction `writeblocks` issues is the sixteenth Page Program, not a
BUSY-clear poll — the operation returns with the final program unverified
(there is no trailing `_await` in `_write`). -/
theorem claim_C8_counterexample :
    ((writeblocks (2 ^ 24) (adrLenOf (2 ^ 24)) (fun _ => 255) 3
        (List.replicate 512 0xA5)).map fun r => r.1.getLast?.map isAwaitEv) =
      .ok (some false) ∧
    ((writeblocks (2 ^ 24) (adrLenOf (2 ^ 24)) (fun _ => 255) 3
        (List.replicate 512 0xA5)).map fun r => r.1.getLast?.map isPageProgramEv) =
      .ok (some true) := by
  have h := scenario4_trace
  cases hw : writeblocks (2 ^ 24) (adrLenOf (2 ^ 24)) (fun _ => 255) 3
      (List.replicate 512 0xA5) with
  | error e =>
    rw [hw] at h
    simp only [Except.map] at h
    exact Except.noConfusion h
  | ok r =>
    rw [hw] at h
    simp only [Except.map, Except.ok.injEq] at h
    constructor
    · simp only [Except.map, Except.ok.injEq]
      rw [h]
      decide
    · simp only [Except.map, Except.ok.injEq]
      rw [h]
      decide

/-- C8 (amended): `readblocks` and `writeblocks` begin with an implicit
await; `format` both begins and ends with one; but `readblocks` ends with
the Fast Read and `writeblocks` ends with the final Page Program — neither
re-polls BUSY before returning — and `reset` awaits only when the vestigial
in-memory busy flag is set. -/
theorem claim_C8 :
    (∀ (mem : Mem) (blocknum : Nat), blocknum * 512 + 512 ≤ 2 ^ 24 →
      ((readblocks (2 ^ 24) (adrLenOf (2 ^ 24)) mem blocknum 512).map
        fun r => (r.1.head?.map isAwaitEv, r.1.getLast?.map isFastReadEv)) =
        .ok (some true, some true)) ∧
    ((writeblocks (2 ^ 24) (adrLenOf (2 ^ 24)) (fun _ => 255) 3
        (List.replicate 512 0xA5)).map
        fun r => (r.1.head?.map isAwaitEv, r.1.getLast?.map isPageProgramEv)) =
      .ok (some true, some true) ∧
    formatTrace.head? = some Ev.statusRead ∧
    formatTrace.getLast? = some Ev.statusRead ∧
    resetTrace false = [Ev.resetEnable, Ev.resetCmd] ∧
    resetTrace true = [Ev.statusRead, Ev.resetEnable, Ev.resetCmd] := by
  refine ⟨?_, ?_, rfl, rfl, rfl, rfl⟩
  · intro mem blocknum hcap
    rw [readblocks_single (2 ^ 24) (adrLenOf (2 ^ 24)) mem blocknum hcap
      (pow_le_adrLen_bound 24 (by norm_num) (by norm_num))]
    rfl
  · have h := scenario4_trace
    cases hw : writeblocks (2 ^ 24) (adrLenOf (2 ^ 24)) (fun _ => 255) 3
        (List.replicate 512 0xA5) with
    | error e =>
      rw [hw] at h
      simp only [Except.map] at h
      exact Except.noConfusion h
    | ok r =>
      rw [hw] at h
      simp only [Except.map, Except.ok.injEq] at h ⊢
      rw [h]
      decide

/-- Witness for C8: a concrete single-block read on the 16 MB part. -/
theorem claim_C8_witness :
    ((readblocks (2 ^ 24) (adrLenOf (2 ^ 24)) (fun _ => 255) 3 512).map
      fun r => (r.1.head?.map isAwaitEv, r.1.getLast?.map isFastReadEv)) =
      .ok (some true, some true) :=
  claim_C8.1 (fun _ => 255) 3 (by norm_num)

/-- C9: the code contradicts `_write`'s documented page-alignment contract:
address 16 has its low four bits clear, so the source assertion
`not addr & 0xf` accepts it although 16 is not a multiple of PAGE_SIZE
(256) — `_write` proceeds to program a page at an unaligned address instead
of failing with the InvalidLength assertion the doc-comment promises. -/
theorem claim_C9 :
    (16 &&& 0xf = 0) ∧ 16 % 256 ≠ 0 ∧
    ∃ memF, _write (2 ^ 24) 3 (fun _ => 255) (List.replicate 256 0) 16 =
      .ok (pagesTrace 3 (List.replicate 256 0) 16 0 1, memF) := by
  refine ⟨by decide, by decide, ?_⟩
  obtain ⟨memF, heq, _⟩ :=
    _write_ok (2 ^ 24) 3 (fun _ => 255) (List.replicate 256 0) 16
      (by rw [List.length_replicate]) (by decide)
      (by rw [List.length_replicate]; norm_num)
      (by rw [List.length_replicate]; norm_num)
  refine ⟨memF, ?_⟩
  rw [heq, show (List.replicate 256 (0 : Nat)).length / 256 = 1 from by
    rw [List.length_replicate]]

/-- C10: on a zero JEDEC byte, `identify` still stores `2 ** cap` into the
capacity attribute before raising, and leaves the manufacturer, memory-type
and device-type attributes at their constructor defaults of 0; the stored
capacity is nonzero even for `cap = 0`. -/
theorem claim_C10 (mf mem_type cap : Nat)
    (h : mf = 0 ∨ mem_type = 0 ∨ cap = 0) :
    identify initIdState mf mem_type cap =
      (⟨0, 0, 0, 2 ^ cap⟩, some "device not responding, check wiring.") ∧
    0 < 2 ^ cap := by
  constructor
  · simp only [identify, initIdState]
    rw [if_pos h]
  · positivity

/-- Witness for C10: the all-zero JEDEC response of the spec's scenario 3;
the capacity attribute reads 1 after the failed call. -/
theorem claim_C10_witness :
    identify initIdState 0 0 0 =
      (⟨0, 0, 0, 2 ^ 0⟩, some "device not responding, check wiring.") ∧
    0 < 2 ^ 0 :=
  claim_C10 0 0 0 (Or.inl rfl)

end Winbond
